import Mathlib

/-!
Verification of the citation-processing core of the `nb2html` repository
(`nbref/AddCitationsPreprocessor.py`), shallowly embedded in Lean 4.

Cell text is modelled as `List Char`.  Python's `str.find` / `str.rfind`
(single-character needles, as used by the source) are modelled by `strFind`
and `strRfind` returning `Option Nat` in place of the `-1` convention; every
use site reproduces the source's arithmetic on the `-1` case explicitly.
The scanner's `while` loop is modelled with explicit fuel (`scanLoop`); the
source loop has no a-priori termination measure, and indeed does not
terminate on some inputs (see the claim about termination below).
The external pandoc invocation and the filesystem are abstracted as an
environment `Env`; the pipeline records each formatter invocation so that
"called before / not called" properties can be stated.
-/

namespace NbRef

/-- Python `source.find(c, i)` for a one-character needle: index of the first
occurrence of `c` at position `≥ i`, walking the suffix `s.drop i`. -/
def findAux (c : Char) : List Char → Nat → Option Nat
  | [], _ => none
  | x :: xs, idx => if x = c then some idx else findAux c xs (idx + 1)

/-- Python `source.find(c, i)` (`none` in place of `-1`). -/
def strFind (s : List Char) (c : Char) (i : Nat) : Option Nat :=
  findAux c (s.drop i) i

/-- Helper for `strRfind`: walk left-to-right remembering the last match. -/
def rfindAux (c : Char) : List Char → Nat → Option Nat → Option Nat
  | [], _, acc => acc
  | x :: xs, idx, acc => rfindAux c xs (idx + 1) (if x = c then some idx else acc)

/-- Python `source.rfind(c, lo, hi)`: highest index `j` with `lo ≤ j < hi`
and `s[j] = c` (`none` in place of `-1`). -/
def strRfind (s : List Char) (c : Char) (lo hi : Nat) : Option Nat :=
  rfindAux c ((s.drop lo).take (hi - lo)) lo none

/-- Python slice `s[a:b]` (clamping, empty when `b ≤ a`). -/
def pySlice (s : List Char) (a b : Nat) : List Char :=
  (s.drop a).take (b - a)

/-- Python `'\n'.split`-style splitting of a string on newline characters:
`n` separators yield `n + 1` parts, so `splitNl [] = [[]]`. -/
def splitNl : List Char → List (List Char)
  | [] => [[]]
  | c :: rest =>
    match splitNl rest with
    | [] => [[]]
    | p :: ps => if c = '\n' then [] :: p :: ps else (c :: p) :: ps

/-- Python `sep.join(parts)`. -/
def joinSep (sep : List Char) : List (List Char) → List Char
  | [] => []
  | [x] => x
  | x :: xs => x ++ sep ++ joinSep sep xs

/-- Boolean test that `p` is a (left) prefix of `s`. -/
def isPre : List Char → List Char → Bool
  | [], _ => true
  | _ :: _, [] => false
  | x :: xs, y :: ys => x = y && isPre xs ys

/-- One pass of Python `str.replace` for a nonempty needle `old`, with
explicit fuel so the definition is structural (and hence evaluates in the
kernel).  With `fuel ≥ s.length` and `old ≠ []` the fuel is never exhausted:
each step consumes one unit of fuel and at least one character of `s`. -/
def replGo (old new : List Char) : Nat → List Char → List Char
  | _, [] => []
  | 0, s => s
  | f + 1, c :: rest =>
    if isPre old (c :: rest) then new ++ replGo old new f (rest.drop (old.length - 1))
    else c :: replGo old new f rest

/-- Python `s.replace(old, new)` (all non-overlapping occurrences, left to
right; an empty `old` inserts `new` around every character). -/
def pyReplace (s old new : List Char) : List Char :=
  if old = [] then new ++ s.foldr (fun c acc => c :: new ++ acc) []
  else replGo old new s.length s

/-! ## Data model

`Cell` mirrors the two fields of a notebook cell the core reads and writes:
`cell_type` and `source` (metadata is never touched). -/

structure Cell where
  cell_type : List Char
  source : List Char
deriving DecidableEq

/-- Placeholder cell used with `List.getD` at indices proven in bounds. -/
def defCell : Cell := ⟨[], []⟩

/-- The configurable attributes of `AddCitationsPreprocessor` that the core
logic reads. -/
structure Config where
  header : List Char
  bibliography : List Char
  csl : List Char
  csl_path : List (List Char)

/-- The external world: `os.path.isfile` and the pandoc invocation
`pypandoc.convert_text` (with filters/arguments fixed by the run), both
abstracted as pure functions. -/
structure Env where
  isFile : List Char → Bool
  convert : List Char → List Char

/-- The two `IOError`s raised by the source, plus Python `IndexError`
(raised by `body[i]` when pandoc returns fewer lines than citations, and by
`nb.cells[-2]` on a notebook with fewer than two cells). -/
inductive PErr where
  | cslNotFound (name : List Char)
  | bibNotFound (name : List Char)
  | indexError
deriving DecidableEq

/-! ## Document Assembler: `_is_cell_empty`, `_clear_empty_cells` -/

/-- `_is_cell_empty`: a cell is empty iff it is a code cell whose source is
the empty string. -/
def is_cell_empty (cell : Cell) : Bool :=
  cell.cell_type = ('c' :: 'o' :: 'd' :: 'e' :: []) && cell.source = []

/-- `_clear_empty_cells`: drop empty cells, keeping order. -/
def clear_empty_cells (cells : List Cell) : List Cell :=
  cells.filter (fun cell => !is_cell_empty cell)

/-! ## Marker Scanner: `_is_index_in_ranges`, `_extract_citations` -/

/-- `_is_index_in_ranges`: `index` lies in some half-open `[lo, hi)` of
`ranges`. -/
def is_index_in_ranges (index : Nat) (ranges : List (Nat × Nat)) : Bool :=
  ranges.any (fun r => decide (r.1 ≤ index) && decide (index < r.2))

/-- The `else` branch of the scanner: `end = min(end1, end2, end3)` where
`end1/2/3` are `source.find` of space, comma, period from `start` (with `-1`
mapped to `len(source)`). -/
def bareEnd (s : List Char) (start : Nat) : Nat :=
  let e1 := (strFind s ' ' start).getD s.length
  let e2 := (strFind s ',' start).getD s.length
  let e3 := (strFind s '.' start).getD s.length
  min e1 (min e2 e3)

/-- The span computation of one loop iteration of `_extract_citations` for a
qualifying `@` at `start` (given the previous `end` and `ranges`): either an
unconsumed `[` is found by `rfind` and the span runs to `find(']') + 1`
(`0` when there is no `]`, reproducing `-1 + 1`), or the span is bare. -/
def stepSpan (s : List Char) (start end_ : Nat) (ranges : List (Nat × Nat)) : Nat × Nat :=
  match strRfind s '[' end_ start with
  | some index =>
    if is_index_in_ranges index ranges then (start, bareEnd s start)
    else (index, match strFind s ']' index with
                 | some j => j + 1
                 | none => 0)
  | none => (start, bareEnd s start)

/-- The `while start >= 0` loop of `_extract_citations`, with fuel.  `start`
is the position of the `@` just found; `none` means the fuel ran out (the
source loop has no termination guarantee). -/
def scanLoop (s : List Char) : Nat → Nat → List (Nat × Nat) → List (List Char) → Nat →
    Option (List (List Char))
  | _, _, _, _, 0 => none
  | start, end_, ranges, citations, fuel + 1 =>
    if start = 0 ∨ s.getD (start - 1) '\x00' ∈ ['[', ' ', '-'] then
      let p := stepSpan s start end_ ranges
      let citation := pySlice s p.1 p.2
      let citations' := if citation ∈ citations then citations else citations ++ [citation]
      let ranges' := ranges ++ [(p.1, p.2)]
      match strFind s '@' p.2 with
      | none => some citations'
      | some start' => scanLoop s start' p.2 ranges' citations' fuel
    else
      match strFind s '@' (start + 1) with
      | none => some citations
      | some start' => scanLoop s start' (start + 1) ranges citations fuel

/-- Scan of one cell's source: `start = source.find('@', 0)`, `end = 0`,
`ranges = []`; `citations` accumulates across cells. -/
def scanCell (s : List Char) (citations : List (List Char)) (fuel : Nat) :
    Option (List (List Char)) :=
  match strFind s '@' 0 with
  | none => some citations
  | some start => scanLoop s start 0 [] citations fuel

/-- The `for cell in nb.cells` loop of `_extract_citations`. -/
def extractGo (fuel : Nat) : List Cell → List (List Char) → Option (List (List Char))
  | [], citations => some citations
  | cell :: cells, citations =>
    match scanCell cell.source citations fuel with
    | none => none
    | some citations' => extractGo fuel cells citations'

/-- `_extract_citations` (with fuel; `none` = the source loop diverges). -/
def extract_citations (cells : List Cell) (fuel : Nat) : Option (List (List Char)) :=
  extractGo fuel cells []

/-! ## Substitution Engine: `_substitute_citations` -/

/-- Python string `≤` (lexicographic by code point), as used by `list.sort`
on the substitution keys. -/
def strLe : List Char → List Char → Bool
  | [], _ => true
  | _ :: _, [] => false
  | x :: xs, y :: ys => if x = y then strLe xs ys else decide (x.toNat < y.toNat)

/-- Insertion step of a stable ascending sort. -/
def insertSorted (x : List Char) : List (List Char) → List (List Char)
  | [] => [x]
  | y :: ys => if strLe x y then x :: y :: ys else y :: insertSorted x ys

/-- Stable ascending sort of the key list (models Python `keys.sort()`; the
keys are pairwise distinct, so any correct ascending sort produces the same
list). -/
def sortAsc (l : List (List Char)) : List (List Char) :=
  l.foldr insertSorted []

/-- `keys = list(substitutions.keys()); keys.sort(); keys.reverse()`: the
substitution keys in descending lexical order.  The substitution table is an
association list in insertion order, mirroring a Python dict. -/
def sortKeysDesc (substitutions : List (List Char × List Char)) : List (List Char) :=
  (sortAsc (substitutions.map Prod.fst)).reverse

/-- The inner `for old in keys` loop of `_substitute_citations` applied to
one cell's source. -/
def substSource (keys : List (List Char)) (substitutions : List (List Char × List Char))
    (source : List Char) : List Char :=
  keys.foldl (fun s old => pyReplace s old ((substitutions.lookup old).getD [])) source

/-- `_substitute_citations`: rewrite every cell's source, applying the keys
in descending lexical order. -/
def substitute_citations (cells : List Cell) (substitutions : List (List Char × List Char)) :
    List Cell :=
  cells.map (fun cell =>
    { cell with source := substSource (sortKeysDesc substitutions) substitutions cell.source })

/-! ## Document Assembler: `_add_references` -/

/-- The header text `'## ' + self.header`. -/
def headerText (cfg : Config) : List Char :=
  '#' :: '#' :: ' ' :: cfg.header

/-- `_add_references`: for a nonempty references block, overwrite the last
cell when `nb.cells[-2]` is the header, otherwise append a markdown
header/body pair.  `none` models the `IndexError` Python raises evaluating
`nb.cells[-2]` on a notebook with fewer than two cells. -/
def add_references (cfg : Config) (cells : List Cell) (references : List Char) :
    Option (List Cell) :=
  if references = [] then some cells
  else if cells.length < 2 then none
  else if (cells.getD (cells.length - 2) defCell).source = headerText cfg then
    some (cells.set (cells.length - 1)
      { cells.getD (cells.length - 1) defCell with source := references })
  else
    some (cells ++ [⟨('m' :: 'a' :: 'r' :: 'k' :: 'd' :: 'o' :: 'w' :: 'n' :: []), headerText cfg⟩,
                    ⟨('m' :: 'a' :: 'r' :: 'k' :: 'd' :: 'o' :: 'w' :: 'n' :: []), references⟩])

/-! ## Reference Formatter Adapter: `_find_csl_file`, `_process_citations` -/

/-- `os.path.join(path, file)` for the cases that arise here. -/
def osJoin (p f : List Char) : List Char :=
  if f.head? = some '/' then f
  else if p = [] then f
  else if p.getLast? = some '/' then p ++ f
  else p ++ '/' :: f

/-- `_find_csl_file`: first directory of `csl_path` whose join with `csl` is
a file, else the `IOError` for the CSL file. -/
def find_csl_file (cfg : Config) (env : Env) : Except PErr (List Char) :=
  match cfg.csl_path.find? (fun p => env.isFile (osJoin p cfg.csl)) with
  | some p => .ok (osJoin p cfg.csl)
  | none => .error (.cslNotFound cfg.csl)

/-- Python `line[26:-11]`: strip the fixed 26-character prefix and
11-character suffix pandoc wraps each citation line in. -/
def citeSlice (l : List Char) : List Char :=
  (l.drop 26).take (l.length - 11 - 26)

instance {ε α : Type} [DecidableEq ε] [DecidableEq α] : DecidableEq (Except ε α) := by
  intro a b
  cases a <;> cases b
  case error.error x y =>
    exact if h : x = y then .isTrue (by rw [h]) else .isFalse (by intro hc; cases hc; exact h rfl)
  case error.ok x y => exact .isFalse (by intro hc; cases hc)
  case ok.error x y => exact .isFalse (by intro hc; cases hc)
  case ok.ok x y =>
    exact if h : x = y then .isTrue (by rw [h]) else .isFalse (by intro hc; cases hc; exact h rfl)

/-- Result of `_process_citations`: the value returned (or error raised),
plus the list of bodies passed to the external formatter (so that "no
external call was made" is a statable property). -/
structure ProcOut where
  result : Except PErr (List (List Char × List Char) × List Char)
  calls : List (List Char)
deriving DecidableEq

/-- `_process_citations` (with the scanner's fuel; `none` = extraction
diverges).  Faithful to the source's order of effects: extraction, the
empty-list early return, CSL resolution, the bibliography existence check,
then the single pandoc call and the `[26:-11]` / join parsing.  When pandoc
returns fewer lines than citations, `body[i]` raises `IndexError`. -/
def process_citations (cfg : Config) (env : Env) (cells : List Cell) (fuel : Nat) :
    Option ProcOut :=
  match extract_citations cells fuel with
  | none => none
  | some citations =>
    if citations = [] then some ⟨.ok ([], []), []⟩
    else
      let body := citations.foldl (fun acc c => acc ++ c ++ ['\n', '\n']) []
      match find_csl_file cfg env with
      | .error e => some ⟨.error e, []⟩
      | .ok _cslFile =>
        if env.isFile cfg.bibliography = false then
          some ⟨.error (.bibNotFound cfg.bibliography), []⟩
        else
          let lines := splitNl (env.convert body)
          if lines.length < citations.length then some ⟨.error .indexError, [body]⟩
          else
            let substitutions :=
              (citations.zip (lines.take citations.length)).map (fun q => (q.1, citeSlice q.2))
            let references :=
              joinSep ('\n' :: '<' :: 'p' :: '>' :: '<' :: '/' :: 'p' :: '>' :: '\n' :: [])
                (lines.drop citations.length)
            some ⟨.ok (substitutions, references), [body]⟩

/-! ## Pipeline: `preprocess` -/

/-- Result of `preprocess`: `err = none` on success; `cells` is the notebook
state on return (the state at the raise point when an error propagates,
since the notebook is mutated in place); `calls` as in `ProcOut`. -/
structure PreOut where
  err : Option PErr
  cells : List Cell
  calls : List (List Char)
deriving DecidableEq

/-- `preprocess`: strip empty cells, process citations, and when the
references block is nonempty, substitute and append/overwrite references. -/
def preprocess (cfg : Config) (env : Env) (nb : List Cell) (fuel : Nat) : Option PreOut :=
  let cells1 := clear_empty_cells nb
  match process_citations cfg env cells1 fuel with
  | none => none
  | some po =>
    match po.result with
    | .error e => some ⟨some e, cells1, po.calls⟩
    | .ok (subs, refs) =>
      if refs ≠ [] then
        let cells2 := substitute_citations cells1 subs
        match add_references cfg cells2 refs with
        | none => some ⟨some .indexError, cells2, po.calls⟩
        | some cells3 => some ⟨none, cells3, po.calls⟩
      else some ⟨none, cells1, po.calls⟩

/-! ## Specification-side definitions

These do not model source code; they state the properties the spec claims,
to be compared with the source-derived definitions above. -/

/-- Fold step keeping the first occurrence of each element. -/
def insNew (acc : List (List Char)) (c : List Char) : List (List Char) :=
  if c ∈ acc then acc else acc ++ [c]

/-- Modelled from the spec: keep each distinct literal once, at the position
of its first appearance. -/
def dedupFirst (l : List (List Char)) : List (List Char) :=
  l.foldl insNew []

/-- Modelled from the spec: the bare-marker terminators (space, comma,
period). -/
def isStopChar (c : Char) : Bool :=
  c = ' ' || c = ',' || c = '.'

/-- First index `≥ n` (counting from `n`) whose character is a stop
character. -/
def firstStopIdx : List Char → Nat → Option Nat
  | [], _ => none
  | c :: cs, n => if isStopChar c then some n else firstStopIdx cs (n + 1)

/-- Modelled from the spec: "the first occurrence, at or after the `@`, of a
space, comma, or period, or the end of the text if none exists". -/
def firstStopFrom (s : List Char) (i : Nat) : Nat :=
  (firstStopIdx (s.drop i) i).getD s.length

/-- The scanner loop with the dedup check removed: it emits every recorded
citation, in recording order (used to state the dedup property of
`_extract_citations` as a refinement). -/
def scanLoopRaw (s : List Char) : Nat → Nat → List (Nat × Nat) → Nat →
    Option (List (List Char))
  | _, _, _, 0 => none
  | start, end_, ranges, fuel + 1 =>
    if start = 0 ∨ s.getD (start - 1) '\x00' ∈ ['[', ' ', '-'] then
      let p := stepSpan s start end_ ranges
      let citation := pySlice s p.1 p.2
      let ranges' := ranges ++ [(p.1, p.2)]
      match strFind s '@' p.2 with
      | none => some [citation]
      | some start' => (scanLoopRaw s start' p.2 ranges' fuel).map (citation :: ·)
    else
      match strFind s '@' (start + 1) with
      | none => some []
      | some start' => scanLoopRaw s start' (start + 1) ranges fuel

/-- Per-cell raw scan (every recorded citation, duplicates kept). -/
def scanCellRaw (s : List Char) (fuel : Nat) : Option (List (List Char)) :=
  match strFind s '@' 0 with
  | none => some []
  | some start => scanLoopRaw s start 0 [] fuel

/-- Notebook-level raw scan. -/
def extractGoRaw (fuel : Nat) : List Cell → Option (List (List Char))
  | [] => some []
  | cell :: cells =>
    match scanCellRaw cell.source fuel with
    | none => none
    | some l => (extractGoRaw fuel cells).map (l ++ ·)

/-- The sequence of all citation spans the scanner records, in scan order,
duplicates kept; `_extract_citations` is its first-occurrence dedup. -/
def extract_citations_raw (cells : List Cell) (fuel : Nat) : Option (List (List Char)) :=
  extractGoRaw fuel cells

/-! ## Helper lemmas -/

lemma iir_append (i : Nat) (r l : List (Nat × Nat)) :
    is_index_in_ranges i (r ++ l) = (is_index_in_ranges i r || is_index_in_ranges i l) := by
  simp [is_index_in_ranges, List.any_append]

lemma findAux_append (c : Char) (ys : List Char) :
    ∀ (xs : List Char) (n : Nat),
    findAux c (xs ++ ys) n =
      match findAux c xs n with
      | some j => some j
      | none => findAux c ys (n + xs.length) := by
  intro xs
  induction xs with
  | nil => intro n; simp [findAux]
  | cons x xs ih =>
    intro n
    simp only [List.cons_append, findAux, List.length_cons]
    by_cases hx : x = c
    · simp [hx]
    · simp only [if_neg hx]
      have hi := ih (n + 1)
      rw [show n + 1 + xs.length = n + (xs.length + 1) from by omega] at hi
      exact hi

lemma findAux_none (c : Char) : ∀ (xs : List Char), c ∉ xs → ∀ n, findAux c xs n = none := by
  intro xs
  induction xs with
  | nil => intro _ _; rfl
  | cons x xs ih =>
    intro h n
    have hx : ¬x = c := fun hc => h (hc ▸ List.mem_cons_self x xs)
    simp only [findAux, if_neg hx]
    exact ih (fun hm => h (List.mem_cons_of_mem x hm)) (n + 1)

lemma findAux_ge (c : Char) : ∀ (xs : List Char) (n j : Nat), findAux c xs n = some j → n ≤ j := by
  intro xs
  induction xs with
  | nil => intro n j h; cases h
  | cons x xs ih =>
    intro n j h
    by_cases hx : x = c
    · simp [findAux, hx] at h; omega
    · simp only [findAux, if_neg hx] at h
      have := ih (n + 1) j h
      omega

lemma le_getD_findAux (c : Char) (xs : List Char) (n : Nat) :
    n ≤ (findAux c xs (n + 1)).getD (n + xs.length + 1) := by
  cases heq : findAux c xs (n + 1) with
  | none => simp; omega
  | some j => have := findAux_ge c xs (n + 1) j heq; simp; omega

lemma min3_findAux : ∀ (xs : List Char) (n : Nat),
    min ((findAux ' ' xs n).getD (n + xs.length))
      (min ((findAux ',' xs n).getD (n + xs.length)) ((findAux '.' xs n).getD (n + xs.length)))
    = (firstStopIdx xs n).getD (n + xs.length) := by
  intro xs
  induction xs with
  | nil => intro n; simp [findAux, firstStopIdx]
  | cons x xs ih =>
    intro n
    have hX1 := le_getD_findAux ' ' xs n
    have hX2 := le_getD_findAux ',' xs n
    have hX3 := le_getD_findAux '.' xs n
    have hIH := ih (n + 1)
    rw [show n + 1 + xs.length = n + xs.length + 1 from by omega] at hIH
    by_cases h1 : x = ' '
    · subst h1
      simp +decide only [findAux, firstStopIdx, isStopChar, List.length_cons, Option.getD_some,
        if_true, if_false]
      rw [show n + (xs.length + 1) = n + xs.length + 1 from by omega]
      omega
    · by_cases h2 : x = ','
      · subst h2
        simp +decide only [findAux, firstStopIdx, isStopChar, List.length_cons, Option.getD_some,
          if_true, if_false]
        rw [show n + (xs.length + 1) = n + xs.length + 1 from by omega]
        omega
      · by_cases h3 : x = '.'
        · subst h3
          simp +decide only [findAux, firstStopIdx, isStopChar, List.length_cons, Option.getD_some,
            if_true, if_false]
          rw [show n + (xs.length + 1) = n + xs.length + 1 from by omega]
          omega
        · have hstop : isStopChar x = false := by simp [isStopChar, h1, h2, h3]
          simp only [findAux, firstStopIdx, List.length_cons, if_neg h1, if_neg h2, if_neg h3,
            hstop, Bool.false_eq_true, if_false]
          rw [show n + (xs.length + 1) = n + xs.length + 1 from by omega]
          exact hIH

lemma bareEnd_eq_firstStopFrom (s : List Char) (start : Nat) :
    bareEnd s start = firstStopFrom s start := by
  by_cases h : start ≤ s.length
  · have hdl : s.length = start + (s.drop start).length := by
      rw [List.length_drop]
      omega
    unfold bareEnd firstStopFrom strFind
    rw [hdl]
    exact min3_findAux (s.drop start) start
  · have hd : s.drop start = [] := List.drop_eq_nil_of_le (by omega)
    unfold bareEnd firstStopFrom strFind
    rw [hd]
    simp [findAux, firstStopIdx]

lemma scanLoop_eq_raw (s : List Char) :
    ∀ (fuel : Nat) (start end_ : Nat) (ranges : List (Nat × Nat)) (cits : List (List Char)),
    scanLoop s start end_ ranges cits fuel
      = (scanLoopRaw s start end_ ranges fuel).map (fun l => l.foldl insNew cits) := by
  intro fuel
  induction fuel with
  | zero => intro start end_ ranges cits; rfl
  | succ n ih =>
    intro start end_ ranges cits
    simp only [scanLoop, scanLoopRaw]
    by_cases hc : start = 0 ∨ s.getD (start - 1) '\x00' ∈ ['[', ' ', '-']
    · rw [if_pos hc, if_pos hc]
      cases hF : strFind s '@' (stepSpan s start end_ ranges).2 with
      | none =>
        show some (insNew cits (pySlice s (stepSpan s start end_ ranges).1 (stepSpan s start end_ ranges).2))
          = Option.map _ (some [pySlice s (stepSpan s start end_ ranges).1 (stepSpan s start end_ ranges).2])
        simp [List.foldl, insNew]
      | some start' =>
        show scanLoop s start' (stepSpan s start end_ ranges).2
              (ranges ++ [((stepSpan s start end_ ranges).1, (stepSpan s start end_ ranges).2)])
              (insNew cits (pySlice s (stepSpan s start end_ ranges).1 (stepSpan s start end_ ranges).2)) n
          = Option.map _ (Option.map _ (scanLoopRaw s start' (stepSpan s start end_ ranges).2
              (ranges ++ [((stepSpan s start end_ ranges).1, (stepSpan s start end_ ranges).2)]) n))
        rw [ih]
        cases scanLoopRaw s start' (stepSpan s start end_ ranges).2
            (ranges ++ [((stepSpan s start end_ ranges).1, (stepSpan s start end_ ranges).2)]) n with
        | none => rfl
        | some l => simp [List.foldl_cons, insNew]
    · rw [if_neg hc, if_neg hc]
      cases hF : strFind s '@' (start + 1) with
      | none =>
        show some cits = Option.map (fun l => l.foldl insNew cits) (some [])
        rfl
      | some start' =>
        show scanLoop s start' (start + 1) ranges cits n
          = Option.map (fun l => l.foldl insNew cits) (scanLoopRaw s start' (start + 1) ranges n)
        exact ih start' (start + 1) ranges cits

lemma scanCell_eq_raw (s : List Char) (cits : List (List Char)) (fuel : Nat) :
    scanCell s cits fuel = (scanCellRaw s fuel).map (fun l => l.foldl insNew cits) := by
  unfold scanCell scanCellRaw
  cases strFind s '@' 0 with
  | none => rfl
  | some start => exact scanLoop_eq_raw s fuel start 0 [] cits

lemma extractGo_eq_raw (fuel : Nat) :
    ∀ (cells : List Cell) (cits : List (List Char)),
    extractGo fuel cells cits = (extractGoRaw fuel cells).map (fun l => l.foldl insNew cits) := by
  intro cells
  induction cells with
  | nil => intro cits; rfl
  | cons cell cs ih =>
    intro cits
    simp only [extractGo, extractGoRaw]
    rw [scanCell_eq_raw]
    cases hsc : scanCellRaw cell.source fuel with
    | none => rfl
    | some l =>
      show extractGo fuel cs (l.foldl insNew cits)
        = Option.map (fun m => m.foldl insNew cits) (Option.map (fun m => l ++ m) (extractGoRaw fuel cs))
      rw [ih]
      cases extractGoRaw fuel cs with
      | none => rfl
      | some m => simp [List.foldl_append]

lemma foldl_insNew_nodup : ∀ (l : List (List Char)) (acc : List (List Char)),
    acc.Nodup → (l.foldl insNew acc).Nodup := by
  intro l
  induction l with
  | nil => intro acc h; exact h
  | cons c cs ih =>
    intro acc h
    simp only [List.foldl_cons]
    refine ih (insNew acc c) ?_
    unfold insNew
    by_cases hm : c ∈ acc
    · rw [if_pos hm]; exact h
    · rw [if_neg hm, ← List.concat_eq_append]
      exact h.concat hm

lemma process_citations_of_extract_nil (cfg : Config) (env : Env) (cells : List Cell) (fuel : Nat)
    (h : extract_citations cells fuel = some []) :
    process_citations cfg env cells fuel = some ⟨.ok ([], []), []⟩ := by
  unfold process_citations
  rw [h]
  rfl

lemma getLast?_set_last (l : List Cell) (x : Cell) (h : l ≠ []) :
    (l.set (l.length - 1) x).getLast? = some x := by
  have hpos : 0 < l.length := List.length_pos.mpr h
  rw [List.getLast?_eq_getElem? _, List.length_set]
  exact List.getElem?_set_eq_of_lt x (by omega)

lemma getLast?_filter (p : Cell → Bool) :
    ∀ (l : List Cell) (x : Cell), l.getLast? = some x → p x = true →
    (l.filter p).getLast? = some x := by
  intro l
  induction l with
  | nil => intro x h _; cases h
  | cons a l ih =>
    intro x h hp
    cases l with
    | nil =>
      rw [List.getLast?_singleton] at h
      injection h with h
      subst h
      simp [List.filter, hp]
    | cons b m =>
      rw [List.getLast?_cons_cons] at h
      have htail := ih x h hp
      by_cases ha : p a
      · rw [List.filter_cons_of_pos ha]
        cases hfl : List.filter p (b :: m) with
        | nil => rw [hfl] at htail; cases htail
        | cons c k =>
          rw [hfl] at htail
          rw [List.getLast?_cons_cons]
          exact htail
      · rw [List.filter_cons_of_neg (by simpa using ha)]
        exact htail

lemma add_references_overwrite (cfg : Config) (cells : List Cell) (refs : List Char)
    (h2 : 2 ≤ cells.length)
    (hh : (cells.getD (cells.length - 2) defCell).source = headerText cfg)
    (hr : refs ≠ []) :
    add_references cfg cells refs =
      some (cells.set (cells.length - 1)
        { cells.getD (cells.length - 1) defCell with source := refs }) := by
  unfold add_references
  rw [if_neg hr, if_neg (by omega), if_pos hh]

/-! ## Claim theorems -/

/-- Claim C1: for the cell text `"see [@smith2018] and @smith2018 also"` and a
substitution table mapping `"[@smith2018]"` and `"@smith2018"` to their
formatted texts, the substitution engine — which processes the keys in
descending lexical sort order, so `"[@smith2018]"` before `"@smith2018"` —
replaces both occurrences correctly, producing the exact expected text with
no corrupted partial replacement. -/
theorem substitution_processes_bracketed_before_bare :
    substitute_citations
      [⟨"markdown".toList, "see [@smith2018] and @smith2018 also".toList⟩]
      [("[@smith2018]".toList, "(Smith 2018)".toList), ("@smith2018".toList, "Smith (2018)".toList)]
      = [⟨"markdown".toList, "see (Smith 2018) and Smith (2018) also".toList⟩]
    ∧ sortKeysDesc [("[@smith2018]".toList, "(Smith 2018)".toList),
                    ("@smith2018".toList, "Smith (2018)".toList)]
      = ["[@smith2018]".toList, "@smith2018".toList] := by
  decide

/-- Claim C2: for every document and fuel bound, `_extract_citations` is
exactly the first-occurrence dedup of the raw recording sequence (the same
scan with the membership check removed): each distinct literal appears once,
at the position of its first appearance in the scan of the cells in document
order; in particular any returned list has no duplicates. -/
theorem extraction_dedups_first_appearance (cells : List Cell) (fuel : Nat) :
    extract_citations cells fuel = (extract_citations_raw cells fuel).map dedupFirst
    ∧ ∀ l, extract_citations cells fuel = some l → l.Nodup := by
  have heq : extract_citations cells fuel = (extract_citations_raw cells fuel).map dedupFirst :=
    extractGo_eq_raw fuel cells []
  refine ⟨heq, ?_⟩
  intro l hl
  rw [heq] at hl
  cases hr : extract_citations_raw cells fuel with
  | none => rw [hr] at hl; cases hl
  | some r =>
    rw [hr] at hl
    have hd : dedupFirst r = l := by injection hl
    rw [← hd]
    exact foldl_insNew_nodup r [] List.nodup_nil

/-- Witness for C2 at the concrete document `["@a @a"]`: the repeated
literal is extracted once. -/
theorem extraction_dedups_first_appearance_witness :
    extract_citations [⟨"markdown".toList, "@a @a".toList⟩] 9 = some [['@', 'a']]
    ∧ List.Nodup [['@', 'a']] :=
  ⟨by decide,
   (extraction_dedups_first_appearance [⟨"markdown".toList, "@a @a".toList⟩] 9).2
     [['@', 'a']] (by decide)⟩

/-- Claim C3 (refuted — the code does not terminate): on a cell whose text is
`"[@key"` (a qualifying `@` preceded by an unconsumed `[` with no `]`), the
loop of `_extract_citations` never terminates: `end` is set to
`find(']') + 1 = 0`, the span is empty, the recorded range `(0, 0)` never
covers index 0, and the scan re-enters the same configuration forever.  In
the fuel model: the scan returns `none` for every fuel bound. -/
theorem extraction_loops_forever_on_unclosed_bracket : ∀ fuel : Nat,
    extract_citations [⟨"markdown".toList, "[@key".toList⟩] fuel = none := by
  have hloop : ∀ (fuel : Nat) (ranges : List (Nat × Nat)) (cits : List (List Char)),
      is_index_in_ranges 0 ranges = false →
      scanLoop ['[', '@', 'k', 'e', 'y'] 1 0 ranges cits fuel = none := by
    intro fuel
    induction fuel with
    | zero => intro ranges cits _; rfl
    | succ n ih =>
      intro ranges cits h
      have hs : stepSpan ['[', '@', 'k', 'e', 'y'] 1 0 ranges = (0, 0) := by
        unfold stepSpan
        rw [show strRfind ['[', '@', 'k', 'e', 'y'] '[' 0 1 = some 0 from rfl]
        show (if is_index_in_ranges 0 ranges = true
              then ((1 : Nat), bareEnd ['[', '@', 'k', 'e', 'y'] 1)
              else (0, match strFind ['[', '@', 'k', 'e', 'y'] ']' 0 with
                       | some j => j + 1
                       | none => 0)) = (0, 0)
        rw [h]
        decide
      simp only [scanLoop, hs]
      rw [if_pos (Or.inr (by decide))]
      rw [show strFind ['[', '@', 'k', 'e', 'y'] '@' (0, 0).2 = some 1 from rfl]
      refine ih (ranges ++ [((0, 0).1, (0, 0).2)]) _ ?_
      rw [iir_append, h]
      decide
  intro fuel
  show (match scanLoop ['[', '@', 'k', 'e', 'y'] 1 0 [] [] fuel with
        | none => none
        | some citations' => extractGo fuel [] citations') = none
  rw [hloop fuel [] [] rfl]

/-- Claim C4: a bracketed group containing two citations, `"[@k1 @k2]"` for
any key texts free of `]`, is recorded as one single marker — the whole
bracketed span including the brackets — and the inner bare `@key` tokens are
not recorded as separate markers. -/
theorem bracket_with_two_citations_single_marker (k1 k2 : List Char) (fuel : Nat)
    (h1 : ']' ∉ k1) (h2 : ']' ∉ k2) :
    extract_citations [⟨"markdown".toList, '[' :: '@' :: (k1 ++ ' ' :: '@' :: (k2 ++ [']']))⟩]
        (fuel + 1)
      = some ['[' :: '@' :: (k1 ++ ' ' :: '@' :: (k2 ++ [']']))]
    ∧ ('@' :: k1) ∉ ['[' :: '@' :: (k1 ++ ' ' :: '@' :: (k2 ++ [']']))]
    ∧ ('@' :: k2) ∉ ['[' :: '@' :: (k1 ++ ' ' :: '@' :: (k2 ++ [']']))] := by
  set s : List Char := '[' :: '@' :: (k1 ++ ' ' :: '@' :: (k2 ++ [']'])) with hsdef
  have hlen : s.length = k1.length + k2.length + 5 := by
    simp [hsdef]
    omega
  have hrb : strFind s ']' 0 = some (k1.length + k2.length + 4) := by
    show findAux ']' (s.drop 0) 0 = _
    rw [List.drop_zero, hsdef]
    show findAux ']' (k1 ++ ' ' :: '@' :: (k2 ++ [']'])) 2 = _
    rw [findAux_append, findAux_none ']' k1 h1]
    show findAux ']' (k2 ++ [']']) (2 + k1.length + 2) = _
    rw [findAux_append, findAux_none ']' k2 h2]
    show some (2 + k1.length + 2 + k2.length) = _
    congr 1
    omega
  have hstep : stepSpan s 1 0 [] = (0, s.length) := by
    unfold stepSpan
    rw [show strRfind s '[' 0 1 = some 0 from rfl]
    show ((0 : Nat), match strFind s ']' 0 with
                     | some j => j + 1
                     | none => 0) = (0, s.length)
    rw [hrb, hlen]
  have hq : (1 = 0 ∨ s.getD (1 - 1) '\x00' ∈ ['[', ' ', '-']) :=
    Or.inr (by show '[' ∈ ['[', ' ', '-']; decide)
  have hloop : scanLoop s 1 0 [] [] (fuel + 1) = some [s] := by
    simp only [scanLoop, hstep]
    rw [if_pos hq]
    rw [show pySlice s 0 s.length = s from by simp [pySlice]]
    rw [show strFind s '@' s.length = none from by
      simp [strFind, List.drop_length, findAux]]
    simp
  refine ⟨?_, ?_, ?_⟩
  · show (match (match strFind s '@' 0 with
                 | none => some []
                 | some start => scanLoop s start 0 [] [] (fuel + 1)) with
          | none => none
          | some citations' => extractGo (fuel + 1) [] citations') = some [s]
    rw [show strFind s '@' 0 = some 1 from rfl]
    show (match scanLoop s 1 0 [] [] (fuel + 1) with
          | none => none
          | some citations' => extractGo (fuel + 1) [] citations') = some [s]
    rw [hloop]
    rfl
  · intro hmem
    rw [List.mem_singleton, hsdef] at hmem
    injection hmem with hhead _
    exact absurd hhead (by decide)
  · intro hmem
    rw [List.mem_singleton, hsdef] at hmem
    injection hmem with hhead _
    exact absurd hhead (by decide)

/-- Witness for C4 at `k1 = "key1"`, `k2 = "key2"`: `"[@key1 @key2]"` yields
exactly the whole bracket as the single marker. -/
theorem bracket_with_two_citations_single_marker_witness :
    extract_citations [⟨"markdown".toList, "[@key1 @key2]".toList⟩] 1
      = some ["[@key1 @key2]".toList] :=
  (bracket_with_two_citations_single_marker "key1".toList "key2".toList 0
    (by decide) (by decide)).1

/-- Claim C5: at a qualifying `@` (position 0, or preceded by `[`, space, or
`-`) for which the backward bracket search fails or yields an
already-consumed `[`, the loop records the bare span from the `@` to
`firstStopFrom` — the first occurrence, at or after the `@`, of a space,
comma, or period, or the end of the text if none occurs — and continues past
it. -/
theorem bare_marker_span_to_first_stop (s : List Char) (start end_ : Nat)
    (ranges : List (Nat × Nat)) (cits : List (List Char)) (fuel : Nat)
    (hq : start = 0 ∨ s.getD (start - 1) '\x00' ∈ ['[', ' ', '-'])
    (hbr : ∀ i, strRfind s '[' end_ start = some i → is_index_in_ranges i ranges = true) :
    scanLoop s start end_ ranges cits (fuel + 1) =
      (let e := firstStopFrom s start
       let citation := pySlice s start e
       let citations' := if citation ∈ cits then cits else cits ++ [citation]
       match strFind s '@' e with
       | none => some citations'
       | some start' => scanLoop s start' e (ranges ++ [(start, e)]) citations' fuel) := by
  have hstep : stepSpan s start end_ ranges = (start, firstStopFrom s start) := by
    rw [← bareEnd_eq_firstStopFrom]
    unfold stepSpan
    cases hr : strRfind s '[' end_ start with
    | none => rfl
    | some i =>
      show (if is_index_in_ranges i ranges = true then _ else _) = _
      rw [hbr i hr]
      simp
  simp only [scanLoop, hstep]
  rw [if_pos hq]

/-- Witness for C5 at `s = "x @ab cd"`, `start = 2`: the bare span is
`"@ab"`, ending at the space at index 5. -/
theorem bare_marker_span_to_first_stop_witness :
    (2 = 0 ∨ ("x @ab cd".toList.getD (2 - 1) '\x00') ∈ ['[', ' ', '-'])
    ∧ scanLoop "x @ab cd".toList 2 0 [] [] (3 + 1) = some ["@ab".toList]
    ∧ firstStopFrom "x @ab cd".toList 2 = 5 := by
  refine ⟨by decide, ?_, by decide⟩
  have h := bare_marker_span_to_first_stop "x @ab cd".toList 2 0 [] [] 3
    (by decide) (fun i hi => Option.noConfusion hi)
  rw [h]
  decide

/-- Claim C6 counterexample: when the bibliography is missing but the style
file is missing too, the pipeline raises the style-file error, not the
bibliography error, even though the document contains a marker — refuting
the claim as stated. -/
theorem missing_bibliography_counterexample :
    preprocess ⟨"References".toList, "ref.bib".toList, "H.csl".toList, [[]]⟩
        ⟨fun _ => false, fun _ => []⟩
        [⟨"markdown".toList, "@a".toList⟩] 9
      = some ⟨some (PErr.cslNotFound "H.csl".toList), [⟨"markdown".toList, "@a".toList⟩], []⟩
    ∧ (⟨fun _ => false, fun _ => []⟩ : Env).isFile "ref.bib".toList = false
    ∧ extract_citations [⟨"markdown".toList, "@a".toList⟩] 9 = some [['@', 'a']] := by
  refine ⟨?_, rfl, by decide⟩
  decide

/-- Claim C6 (amended): if the bibliography file does not exist, the style
file is resolvable, and the document contains at least one marker, the
pipeline raises the bibliography-not-found error before invoking the
external formatter (no formatter calls are recorded) and before modifying
any cell's text — the returned cells are exactly the empty-cell-stripped
input. -/
theorem missing_bibliography_raises_before_formatter (cfg : Config) (env : Env)
    (nb : List Cell) (fuel : Nat) (cits : List (List Char)) (f : List Char)
    (hext : extract_citations (clear_empty_cells nb) fuel = some cits)
    (hne : cits ≠ [])
    (hcsl : find_csl_file cfg env = .ok f)
    (hbib : env.isFile cfg.bibliography = false) :
    preprocess cfg env nb fuel =
      some ⟨some (.bibNotFound cfg.bibliography), clear_empty_cells nb, []⟩ := by
  obtain ⟨c, cs, rfl⟩ : ∃ c cs, cits = c :: cs := by
    cases cits with
    | nil => exact absurd rfl hne
    | cons c cs => exact ⟨c, cs, rfl⟩
  simp only [preprocess, process_citations]
  rw [hext, hcsl, hbib]
  rfl

/-- Witness for C6 (amended): style file `"c"` resolvable in the current
directory, bibliography `"b"` missing, one marker `"@a"`. -/
theorem missing_bibliography_raises_before_formatter_witness :
    extract_citations [⟨"markdown".toList, "@a".toList⟩] 9 = some [['@', 'a']]
    ∧ preprocess ⟨"References".toList, "b".toList, "c".toList, [[]]⟩
        ⟨fun p => p = "c".toList, fun _ => []⟩
        [⟨"markdown".toList, "@a".toList⟩] 9
      = some ⟨some (PErr.bibNotFound "b".toList), [⟨"markdown".toList, "@a".toList⟩], []⟩ :=
  ⟨by decide,
   missing_bibliography_raises_before_formatter
     ⟨"References".toList, "b".toList, "c".toList, [[]]⟩
     ⟨fun p => p = "c".toList, fun _ => []⟩
     [⟨"markdown".toList, "@a".toList⟩] 9 [['@', 'a']] "c".toList
     (by decide) (by decide) (by decide) (by decide)⟩

/-- Claim C7: if no directory of the configured search path contains the
style file and the document contains at least one marker, the pipeline
raises the style-file-not-found error before invoking the external formatter
(no formatter calls recorded, cells untouched beyond stripping). -/
theorem missing_csl_raises_before_formatter (cfg : Config) (env : Env)
    (nb : List Cell) (fuel : Nat) (cits : List (List Char))
    (hext : extract_citations (clear_empty_cells nb) fuel = some cits)
    (hne : cits ≠ [])
    (hcsl : ∀ p ∈ cfg.csl_path, env.isFile (osJoin p cfg.csl) = false) :
    preprocess cfg env nb fuel =
      some ⟨some (.cslNotFound cfg.csl), clear_empty_cells nb, []⟩ := by
  obtain ⟨c, cs, rfl⟩ : ∃ c cs, cits = c :: cs := by
    cases cits with
    | nil => exact absurd rfl hne
    | cons c cs => exact ⟨c, cs, rfl⟩
  have hfind : find_csl_file cfg env = .error (.cslNotFound cfg.csl) := by
    unfold find_csl_file
    rw [List.find?_eq_none.mpr (by intro p hp; simp [hcsl p hp])]
  simp only [preprocess, process_citations]
  rw [hext, hfind]
  rfl

/-- Witness for C7: no file exists anywhere, one marker `"@a"`. -/
theorem missing_csl_raises_before_formatter_witness :
    extract_citations [⟨"markdown".toList, "@a".toList⟩] 9 = some [['@', 'a']]
    ∧ preprocess ⟨"References".toList, "b".toList, "c".toList, [[]]⟩
        ⟨fun _ => false, fun _ => []⟩
        [⟨"markdown".toList, "@a".toList⟩] 9
      = some ⟨some (PErr.cslNotFound "c".toList), [⟨"markdown".toList, "@a".toList⟩], []⟩ :=
  ⟨by decide,
   missing_csl_raises_before_formatter
     ⟨"References".toList, "b".toList, "c".toList, [[]]⟩
     ⟨fun _ => false, fun _ => []⟩
     [⟨"markdown".toList, "@a".toList⟩] 9 [['@', 'a']]
     (by decide) (by decide) (by decide)⟩

/-- Claim C8: if marker extraction yields the empty list, the formatter
adapter returns an empty substitution table and an empty references block,
and records no external formatter call. -/
theorem no_markers_no_formatter_call (cfg : Config) (env : Env) (cells : List Cell) (fuel : Nat)
    (h : extract_citations cells fuel = some []) :
    process_citations cfg env cells fuel = some ⟨.ok ([], []), []⟩ :=
  process_citations_of_extract_nil cfg env cells fuel h

/-- Witness for C8: a document with no `@` at all. -/
theorem no_markers_no_formatter_call_witness :
    extract_citations [⟨"markdown".toList, "x".toList⟩] 1 = some []
    ∧ process_citations ⟨"References".toList, "b".toList, "c".toList, [[]]⟩
        ⟨fun _ => true, fun _ => []⟩ [⟨"markdown".toList, "x".toList⟩] 1
      = some ⟨.ok ([], []), []⟩ :=
  ⟨by decide,
   no_markers_no_formatter_call ⟨"References".toList, "b".toList, "c".toList, [[]]⟩
     ⟨fun _ => true, fun _ => []⟩ [⟨"markdown".toList, "x".toList⟩] 1 (by decide)⟩

/-- Claim C9 counterexample: when a formatted citation text reintroduces a
marker (`"hello @z"`), the second pipeline run extracts `"@z"`, calls the
formatter again, and overwrites the references cell with different content
(`"R2"` instead of `"R1"`) — the two runs' final references cell contents
are not byte-identical, refuting the claim as stated. -/
theorem rerun_references_counterexample :
    preprocess ⟨"References".toList, "b".toList, "c".toList, [[]]⟩
        ⟨fun _ => true, fun body =>
          if body = "@a\n\n".toList then
            (List.replicate 26 'P' ++ "hello @z".toList ++ List.replicate 11 'S') ++ "\nR1".toList
          else
            (List.replicate 26 'P' ++ ['W'] ++ List.replicate 11 'S') ++ "\nR2".toList⟩
        [⟨"markdown".toList, "@a".toList⟩,
         ⟨"markdown".toList, "## References".toList⟩,
         ⟨"markdown".toList, "old".toList⟩] 30
      = some ⟨none,
          [⟨"markdown".toList, "hello @z".toList⟩,
           ⟨"markdown".toList, "## References".toList⟩,
           ⟨"markdown".toList, "R1".toList⟩], ["@a\n\n".toList]⟩
    ∧ preprocess ⟨"References".toList, "b".toList, "c".toList, [[]]⟩
        ⟨fun _ => true, fun body =>
          if body = "@a\n\n".toList then
            (List.replicate 26 'P' ++ "hello @z".toList ++ List.replicate 11 'S') ++ "\nR1".toList
          else
            (List.replicate 26 'P' ++ ['W'] ++ List.replicate 11 'S') ++ "\nR2".toList⟩
        [⟨"markdown".toList, "hello @z".toList⟩,
         ⟨"markdown".toList, "## References".toList⟩,
         ⟨"markdown".toList, "R1".toList⟩] 30
      = some ⟨none,
          [⟨"markdown".toList, "hello W".toList⟩,
           ⟨"markdown".toList, "## References".toList⟩,
           ⟨"markdown".toList, "R2".toList⟩], ["@z\n\n".toList]⟩
    ∧ ("R2".toList ≠ "R1".toList) := by
  refine ⟨?_, ?_, by decide⟩
  · decide
  · decide

/-- Claim C9 (amended): when the first run succeeds with a nonempty
references block and the once-substituted notebook still carries the header
text `"## " + header` in its second-to-last cell, the run overwrites the
last cell in place — the cell count does not grow and the final cell's text
is the references block.  If the second run extracts no markers from the
processed document (the typical case: formatted text contains no marker
syntax), it leaves the notebook unchanged up to empty-cell stripping and the
final references cell content is byte-identical to the first run's. -/
theorem rerun_overwrites_references (cfg : Config) (env : Env) (nb : List Cell) (fuel : Nat)
    (subs : List (List Char × List Char)) (refs : List Char) (calls : List (List Char))
    (cells2 cellsF : List Cell)
    (hproc : process_citations cfg env (clear_empty_cells nb) fuel = some ⟨.ok (subs, refs), calls⟩)
    (hrefs : refs ≠ [])
    (hc2 : cells2 = substitute_citations (clear_empty_cells nb) subs)
    (hlen2 : 2 ≤ cells2.length)
    (hhdr : (cells2.getD (cells2.length - 2) defCell).source = headerText cfg)
    (hF : cellsF = cells2.set (cells2.length - 1)
            { cells2.getD (cells2.length - 1) defCell with source := refs }) :
    preprocess cfg env nb fuel = some ⟨none, cellsF, calls⟩
    ∧ cellsF.length = (clear_empty_cells nb).length
    ∧ cellsF.getLast?.map Cell.source = some refs
    ∧ ∀ fuel2, extract_citations (clear_empty_cells cellsF) fuel2 = some [] →
        preprocess cfg env cellsF fuel2 = some ⟨none, clear_empty_cells cellsF, []⟩
        ∧ (clear_empty_cells cellsF).getLast?.map Cell.source = some refs := by
  have hne2 : cells2 ≠ [] := by
    intro hc
    rw [hc] at hlen2
    simp at hlen2
  have hadd : add_references cfg cells2 refs =
      some (cells2.set (cells2.length - 1)
        { cells2.getD (cells2.length - 1) defCell with source := refs }) :=
    add_references_overwrite cfg cells2 refs hlen2 hhdr hrefs
  have hlast : cellsF.getLast?
      = some { cells2.getD (cells2.length - 1) defCell with source := refs } := by
    rw [hF]
    exact getLast?_set_last cells2 _ hne2
  have hlastsrc : cellsF.getLast?.map Cell.source = some refs := by
    rw [hlast]
    rfl
  have hmain : preprocess cfg env nb fuel = some ⟨none, cellsF, calls⟩ := by
    simp only [preprocess]
    rw [hproc]
    show (if refs ≠ [] then
            match add_references cfg (substitute_citations (clear_empty_cells nb) subs) refs with
            | none => some (PreOut.mk (some .indexError)
                (substitute_citations (clear_empty_cells nb) subs) calls)
            | some cells3 => some (PreOut.mk none cells3 calls)
          else some (PreOut.mk none (clear_empty_cells nb) calls))
        = some (PreOut.mk none cellsF calls)
    rw [if_pos hrefs, ← hc2, hadd, ← hF]
  have hlen : cellsF.length = (clear_empty_cells nb).length := by
    rw [hF, List.length_set, hc2]
    simp [substitute_citations]
  refine ⟨hmain, hlen, hlastsrc, ?_⟩
  intro fuel2 hx2
  have hp2 := process_citations_of_extract_nil cfg env (clear_empty_cells cellsF) fuel2 hx2
  have hpre2 : preprocess cfg env cellsF fuel2 = some ⟨none, clear_empty_cells cellsF, []⟩ := by
    simp only [preprocess]
    rw [hp2]
    rfl
  refine ⟨hpre2, ?_⟩
  have hkeep :
      (!is_cell_empty { cells2.getD (cells2.length - 1) defCell with source := refs }) = true := by
    simp [is_cell_empty, hrefs]
  have hfl := getLast?_filter (fun c => !is_cell_empty c) cellsF
    { cells2.getD (cells2.length - 1) defCell with source := refs } hlast hkeep
  show (cellsF.filter (fun c => !is_cell_empty c)).getLast?.map Cell.source = some refs
  rw [hfl]
  rfl

/-- Witness for C9 (amended): a document that already ends with the
header/body pair; the formatter output reintroduces no marker, so the second
run leaves the references cell byte-identical. -/
theorem rerun_overwrites_references_witness :
    process_citations ⟨"References".toList, "b".toList, "c".toList, [[]]⟩
        ⟨fun _ => true, fun _ =>
          (List.replicate 26 'P' ++ ['W'] ++ List.replicate 11 'S') ++ "\nR1".toList⟩
        [⟨"markdown".toList, "@a".toList⟩,
         ⟨"markdown".toList, "## References".toList⟩,
         ⟨"markdown".toList, "old".toList⟩] 9
      = some ⟨.ok ([("@a".toList, ['W'])], "R1".toList), ["@a\n\n".toList]⟩
    ∧ preprocess ⟨"References".toList, "b".toList, "c".toList, [[]]⟩
        ⟨fun _ => true, fun _ =>
          (List.replicate 26 'P' ++ ['W'] ++ List.replicate 11 'S') ++ "\nR1".toList⟩
        [⟨"markdown".toList, "@a".toList⟩,
         ⟨"markdown".toList, "## References".toList⟩,
         ⟨"markdown".toList, "old".toList⟩] 9
      = some ⟨none,
          [⟨"markdown".toList, "W".toList⟩,
           ⟨"markdown".toList, "## References".toList⟩,
           ⟨"markdown".toList, "R1".toList⟩], ["@a\n\n".toList]⟩
    ∧ preprocess ⟨"References".toList, "b".toList, "c".toList, [[]]⟩
        ⟨fun _ => true, fun _ =>
          (List.replicate 26 'P' ++ ['W'] ++ List.replicate 11 'S') ++ "\nR1".toList⟩
        [⟨"markdown".toList, "W".toList⟩,
         ⟨"markdown".toList, "## References".toList⟩,
         ⟨"markdown".toList, "R1".toList⟩] 9
      = some ⟨none,
          [⟨"markdown".toList, "W".toList⟩,
           ⟨"markdown".toList, "## References".toList⟩,
           ⟨"markdown".toList, "R1".toList⟩], []⟩ := by
  have h := rerun_overwrites_references
    ⟨"References".toList, "b".toList, "c".toList, [[]]⟩
    ⟨fun _ => true, fun _ =>
      (List.replicate 26 'P' ++ ['W'] ++ List.replicate 11 'S') ++ "\nR1".toList⟩
    [⟨"markdown".toList, "@a".toList⟩,
     ⟨"markdown".toList, "## References".toList⟩,
     ⟨"markdown".toList, "old".toList⟩] 9
    [("@a".toList, ['W'])] "R1".toList ["@a\n\n".toList]
    [⟨"markdown".toList, "W".toList⟩,
     ⟨"markdown".toList, "## References".toList⟩,
     ⟨"markdown".toList, "old".toList⟩]
    [⟨"markdown".toList, "W".toList⟩,
     ⟨"markdown".toList, "## References".toList⟩,
     ⟨"markdown".toList, "R1".toList⟩]
    (by decide) (by decide) (by decide) (by decide) (by decide) (by decide)
  exact ⟨by decide, h.1, (h.2.2.2 9 (by decide)).1⟩

/-- Claim C10: if the references block computed by the formatter adapter is
the empty string, `preprocess` skips both the substitution pass and the
references step: the returned cells are exactly the empty-cell-stripped
input, even when the substitution table is nonempty. -/
theorem empty_references_skips_rewrite (cfg : Config) (env : Env) (nb : List Cell) (fuel : Nat)
    (subs : List (List Char × List Char)) (calls : List (List Char))
    (h : process_citations cfg env (clear_empty_cells nb) fuel = some ⟨.ok (subs, []), calls⟩) :
    preprocess cfg env nb fuel = some ⟨none, clear_empty_cells nb, calls⟩ := by
  simp only [preprocess]
  rw [h]
  rfl

/-- Witness for C10: pandoc output with exactly one line yields a nonempty
substitution table and an empty references block; the cells are returned
unchanged. -/
theorem empty_references_skips_rewrite_witness :
    process_citations ⟨"References".toList, "b".toList, "c".toList, [[]]⟩
        ⟨fun _ => true, fun _ => ['L']⟩ [⟨"markdown".toList, "@a".toList⟩] 9
      = some ⟨.ok ([("@a".toList, [])], []), ["@a\n\n".toList]⟩
    ∧ preprocess ⟨"References".toList, "b".toList, "c".toList, [[]]⟩
        ⟨fun _ => true, fun _ => ['L']⟩ [⟨"markdown".toList, "@a".toList⟩] 9
      = some ⟨none, [⟨"markdown".toList, "@a".toList⟩], ["@a\n\n".toList]⟩ :=
  ⟨by decide,
   empty_references_skips_rewrite ⟨"References".toList, "b".toList, "c".toList, [[]]⟩
     ⟨fun _ => true, fun _ => ['L']⟩ [⟨"markdown".toList, "@a".toList⟩] 9
     [("@a".toList, [])] ["@a\n\n".toList] (by decide)⟩

end NbRef
